import Mathlib

/-!
Shallow embedding of `lib/models/ngp.py` (SCARF repository).

Tensors holding a single 3-D point are modelled as functions `Fin 3 → ℝ`;
a batched tensor of points is a `List (Fin 3 → ℝ)`.  The pre-built
tinycudann encoders and MLPs are opaque function-valued fields of the
model structures, since their behaviour lives outside this repository.
Python runtime errors (the `assert` in `forward`, the crash when a `None`
direction reaches `_query_rgb`) are modelled with `Except`.
-/

noncomputable section

open Classical

namespace NGP

/-- `x.norm(dim=-1)` for one row: the Euclidean norm of a 3-vector. -/
def tnorm (y : Fin 3 → ℝ) : ℝ := Real.sqrt (∑ i, y i ^ 2)

/-- The `aabb` buffer: `torch.split(aabb, 3, dim=-1)` yields the two halves
`aabb_min` and `aabb_max`, modelled as the fields `lo` and `hi`. -/
structure Aabb where
  lo : Fin 3 → ℝ
  hi : Fin 3 → ℝ

/-- `x = (x - aabb_min) / (aabb_max - aabb_min)`, the affine normalization
used by the bounded branch of `query_density` and by `NGPNet.forward`. -/
def normalize (a : Aabb) (x : Fin 3 → ℝ) : Fin 3 → ℝ :=
  fun i => (x i - a.lo i) / (a.hi i - a.lo i)

/-- The intermediate `x * 2 - 1` of `contract_to_unisphere`: the box is
sent to `[-1, 1]^3`. -/
def toUnitCube (a : Aabb) (x : Fin 3 → ℝ) : Fin 3 → ℝ :=
  fun i => normalize a x i * 2 - 1

/-- `contract_to_unisphere(x, aabb, eps, derivative)` from `ngp.py`.
For one row, `mag` is the Euclidean norm of the recentred point and
`mask = mag > 1`.  With `derivative=True` the code builds
`dev = (2*mag-1)/mag**2 + 2*x**2 * (1/mag**3 - (2*mag-1)/mag**4)`,
overwrites the unmasked rows with `1.0` and clamps at `min=eps`; with
`derivative=False` the masked rows are replaced by
`(2 - 1/mag) * (x/mag)` and everything is mapped by `x/4 + 0.5`. -/
def contract_to_unisphere (x : Fin 3 → ℝ) (aabb : Aabb) (eps : ℝ)
    (derivative : Bool) : Fin 3 → ℝ :=
  let y := toUnitCube aabb x
  let mag := tnorm y
  if derivative then
    let dev := fun i =>
      (2 * mag - 1) / mag ^ 2 + 2 * y i ^ 2 * (1 / mag ^ 3 - (2 * mag - 1) / mag ^ 4)
    let dev2 := if 1 < mag then dev else fun _ => (1 : ℝ)
    fun i => max (dev2 i) eps
  else
    if 1 < mag then
      fun i => ((2 - 1 / mag) * (y i / mag)) / 4 + 1 / 2
    else
      fun i => y i / 4 + 1 / 2

lemma tnorm_nonneg (y : Fin 3 → ℝ) : 0 ≤ tnorm y := Real.sqrt_nonneg _

lemma abs_le_tnorm (y : Fin 3 → ℝ) (i : Fin 3) : |y i| ≤ tnorm y := by
  have h1 : y i ^ 2 ≤ ∑ j, y j ^ 2 :=
    Finset.single_le_sum (f := fun j => y j ^ 2)
      (fun j _ => sq_nonneg (y j)) (Finset.mem_univ i)
  have h2 : Real.sqrt (y i ^ 2) ≤ Real.sqrt (∑ j, y j ^ 2) :=
    Real.sqrt_le_sqrt h1
  simpa [tnorm, Real.sqrt_sq_eq_abs] using h2

/-- Inside the unisphere (`mag ≤ 1`) the contraction is `y/4 + 1/2`. -/
lemma contract_eq_of_le (x : Fin 3 → ℝ) (aabb : Aabb) (eps : ℝ)
    (h : tnorm (toUnitCube aabb x) ≤ 1) :
    contract_to_unisphere x aabb eps false =
      fun i => toUnitCube aabb x i / 4 + 1 / 2 := by
  simp [contract_to_unisphere, not_lt.mpr h]

/-- Outside the unisphere (`mag > 1`) the contraction is
`((2 - 1/mag) * (y/mag)) / 4 + 1/2`. -/
lemma contract_eq_of_lt (x : Fin 3 → ℝ) (aabb : Aabb) (eps : ℝ)
    (h : 1 < tnorm (toUnitCube aabb x)) :
    contract_to_unisphere x aabb eps false = fun i =>
      ((2 - 1 / tnorm (toUnitCube aabb x)) *
        (toUnitCube aabb x i / tnorm (toUnitCube aabb x))) / 4 + 1 / 2 := by
  simp [contract_to_unisphere, h]

/-- Coordinates of the contracted point lie strictly between 0 and 1. -/
lemma contract_mem_Ioo (x : Fin 3 → ℝ) (aabb : Aabb) (eps : ℝ) (i : Fin 3) :
    0 < contract_to_unisphere x aabb eps false i ∧
      contract_to_unisphere x aabb eps false i < 1 := by
  have habs : |toUnitCube aabb x i| ≤ tnorm (toUnitCube aabb x) :=
    abs_le_tnorm _ i
  by_cases hmag : 1 < tnorm (toUnitCube aabb x)
  · rw [congrFun (contract_eq_of_lt x aabb eps hmag) i]
    set m := tnorm (toUnitCube aabb x) with hm
    set v := toUnitCube aabb x i with hv
    have hpos : 0 < m := lt_trans one_pos hmag
    have hinv : 1 / m < 1 := by rw [div_lt_one hpos]; exact hmag
    have hinvpos : 0 < 1 / m := by positivity
    have hc1 : 1 < 2 - 1 / m := by linarith
    have ht : |v / m| ≤ 1 := by
      rw [abs_div, abs_of_pos hpos, div_le_one hpos]; exact habs
    have hprod : |(2 - 1 / m) * (v / m)| < 2 := by
      rw [abs_mul, abs_of_pos (lt_trans one_pos hc1)]
      calc (2 - 1 / m) * |v / m| ≤ (2 - 1 / m) * 1 :=
            mul_le_mul_of_nonneg_left ht (le_of_lt (lt_trans one_pos hc1))
        _ < 2 := by linarith
    have h2 := abs_lt.mp hprod
    constructor <;> nlinarith [h2.1, h2.2]
  · have h1 : tnorm (toUnitCube aabb x) ≤ 1 := le_of_not_lt hmag
    rw [congrFun (contract_eq_of_le x aabb eps h1) i]
    have habs1 : |toUnitCube aabb x i| ≤ 1 := le_trans habs h1
    have h2 := abs_le.mp habs1
    constructor <;> nlinarith [h2.1, h2.2]

/-- Python runtime failures relevant to `forward`/`_query_rgb`:
`assertionError` is the shape assert in `forward`; `noneDirError` is the
crash when a `None` direction reaches `dir.view` in `_query_rgb`. -/
inductive PyErr where
  | assertionError : PyErr
  | noneDirError : PyErr
deriving DecidableEq

/-- The `cond_type` string argument of `NGPradianceField.__init__`. -/
inductive CondType where
  | condNone : CondType
  | neckPose : CondType
  | posedVerts : CondType
deriving DecidableEq

/-- `NGPradianceField` with `num_dim = 3`.  `E` is the output type of the
opaque tinycudann `direction_encoding`, `F` the type of the
`geo_feat_dim`-dimensional feature row.  `mlp_base` (hash encoding plus
fused MLP) maps a normalized position to the raw density channel and the
feature row; `mlp_head` consumes the optional encoded direction and the
feature and produces an rgb row. -/
structure NGPradianceField (E F : Type) where
  aabb : Aabb
  use_viewdirs : Bool
  cond_type : CondType
  unbounded : Bool
  density_activation : ℝ → ℝ
  mlp_base : (Fin 3 → ℝ) → ℝ × F
  direction_encoding : (Fin 3 → ℝ) → E
  mlp_head : Option E → F → (Fin 3 → ℝ)

/-- `((x > 0.0) & (x < 1.0)).all(dim=-1)` for one row. -/
def selector (x : Fin 3 → ℝ) : Prop := ∀ i, 0 < x i ∧ x i < 1

/-- The float the boolean `selector[..., None]` becomes when multiplied
into the density row. -/
def selWeight (x : Fin 3 → ℝ) : ℝ := if selector x then 1 else 0

/-- Positions as normalized at the top of `query_density`: contraction in
unbounded mode, affine normalization otherwise. -/
def normPos {E F : Type} (rf : NGPradianceField E F) (x : Fin 3 → ℝ) :
    Fin 3 → ℝ :=
  if rf.unbounded then contract_to_unisphere x rf.aabb (1e-6) false
  else normalize rf.aabb x

/-- `NGPradianceField.query_density` for one position, with
`return_feat=True`: the result is the pair (density, base_mlp_out), where
`density = density_activation(raw) * selector`. -/
def query_density {E F : Type} (rf : NGPradianceField E F) (x : Fin 3 → ℝ) :
    ℝ × F :=
  let x' := normPos rf x
  let out := rf.mlp_base x'
  (rf.density_activation out.1 * selWeight x', out.2)

/-- The remapping `_query_rgb` applies to the direction before the
direction encoding: `(dir + 1)/2` for `neck_pose`,
`(dir - aabb_min)/(aabb_max - aabb_min)` for `posed_verts`, and the
identity otherwise. -/
def remapDir {E F : Type} (rf : NGPradianceField E F) (d : Fin 3 → ℝ) :
    Fin 3 → ℝ :=
  match rf.cond_type with
  | CondType.neckPose => fun i => (d i + 1) / 2
  | CondType.posedVerts => normalize rf.aabb d
  | CondType.condNone => d

/-- `NGPradianceField._query_rgb` on a batch: with `use_viewdirs` each
direction is remapped, encoded and concatenated with its feature row
before `mlp_head`; without it `mlp_head` sees the feature row alone.  A
`None` direction with `use_viewdirs=True` crashes (`dir.view` on `None`). -/
def _query_rgb {E F : Type} (rf : NGPradianceField E F)
    (dir : Option (List (Fin 3 → ℝ))) (embedding : List F) :
    Except PyErr (List (Fin 3 → ℝ)) :=
  if rf.use_viewdirs then
    match dir with
    | none => Except.error PyErr.noneDirError
    | some dl =>
        Except.ok ((dl.zip embedding).map fun de =>
          rf.mlp_head (some (rf.direction_encoding (remapDir rf de.1))) de.2)
  else
    Except.ok (embedding.map fun e => rf.mlp_head none e)

/-- `query_density` with `return_feat=True` over a batch of positions:
the densities and the feature rows. -/
def query_density_batch {E F : Type} (rf : NGPradianceField E F)
    (ps : List (Fin 3 → ℝ)) : List ℝ × List F :=
  (ps.map fun p => (query_density rf p).1, ps.map fun p => (query_density rf p).2)

/-- `NGPradianceField.forward`.  The shape assert fires only on the branch
where `use_viewdirs` holds and `directions is not None`; both branches then
compute `query_density` followed by `_query_rgb` and return `(rgb, density)`. -/
def forward {E F : Type} (rf : NGPradianceField E F)
    (positions : List (Fin 3 → ℝ)) (directions : Option (List (Fin 3 → ℝ))) :
    Except PyErr (List (Fin 3 → ℝ) × List ℝ) :=
  if rf.use_viewdirs ∧ directions.isSome then
    if positions.length = (directions.getD []).length then
      (_query_rgb rf directions (query_density_batch rf positions).2).map
        fun rgb => (rgb, (query_density_batch rf positions).1)
    else Except.error PyErr.assertionError
  else
    (_query_rgb rf directions (query_density_batch rf positions).2).map
      fun rgb => (rgb, (query_density_batch rf positions).1)

/-- `torch.sigmoid`. -/
def sigmoid (x : ℝ) : ℝ := 1 / (1 + Real.exp (-x))

/-- `NGPNet` with `input_dim = output_dim = 3`.  `E` is the output type of
the opaque hash-grid encoders; `mlp` consumes the encoded input and the
optionally concatenated encoded condition. -/
structure NGPNet (E : Type) where
  aabb : Aabb
  last_op : ℝ → ℝ
  scale : ℝ
  encoder : (Fin 3 → ℝ) → E
  cond_encoder : (Fin 3 → ℝ) → E
  mlp : E → Option E → (Fin 3 → ℝ)

/-- `NGPNet.forward`: normalize `x` (and `cond` when present) by the aabb,
encode, run the MLP, then apply `last_op` and multiply by `scale`. -/
def NGPNet.forward {E : Type} (n : NGPNet E) (x : Fin 3 → ℝ)
    (cond : Option (Fin 3 → ℝ)) : Fin 3 → ℝ :=
  let xe := n.encoder (normalize n.aabb x)
  let ce := cond.map fun c => n.cond_encoder (normalize n.aabb c)
  fun i => n.last_op (n.mlp xe ce i) * n.scale

/-- The open box `(aabb_min, aabb_max)` as a set of points. -/
def openBox (a : Aabb) : Set (Fin 3 → ℝ) := {x | ∀ i, a.lo i < x i ∧ x i < a.hi i}

/-- The open unit box `(0, 1)^3`. -/
def unitOpenBox : Set (Fin 3 → ℝ) := {x | ∀ i, 0 < x i ∧ x i < 1}

/- Concrete instances used by the closed witness statements. -/

/-- The unit aabb `[0,1]^3`. -/
def aabb01 : Aabb := ⟨fun _ => 0, fun _ => 1⟩

/-- An aabb whose `aabb_min` exceeds `aabb_max` componentwise. -/
def aabbRev : Aabb := ⟨fun _ => 1, fun _ => 0⟩

/-- A bounded radiance field with view directions and `neck_pose`
conditioning, over trivial encoder/MLP pipelines. -/
def rfB : NGPradianceField Unit Unit :=
  { aabb := aabb01, use_viewdirs := true, cond_type := CondType.neckPose,
    unbounded := false, density_activation := fun r => r,
    mlp_base := fun _ => (1, ()), direction_encoding := fun _ => (),
    mlp_head := fun _ _ => fun _ => 0 }

/-- An unbounded radiance field with trivial encoder/MLP pipelines. -/
def rfU : NGPradianceField Unit Unit :=
  { aabb := aabb01, use_viewdirs := false, cond_type := CondType.condNone,
    unbounded := true, density_activation := fun r => r,
    mlp_base := fun _ => (1, ()), direction_encoding := fun _ => (),
    mlp_head := fun _ _ => fun _ => 0 }

/-- A concrete `NGPNet` with the default `last_op = sigmoid`, `scale = 1`. -/
def netW : NGPNet Unit :=
  { aabb := aabb01, last_op := sigmoid, scale := 1, encoder := fun _ => (),
    cond_encoder := fun _ => (), mlp := fun _ _ => fun _ => 0 }

/-- C2: for every aabb with `aabb_max > aabb_min` componentwise and every
input, `contract_to_unisphere(x, aabb, derivative=False)` lands in
`[0, 1]` in each coordinate; writing `y = 2*(x-aabb_min)/(aabb_max-aabb_min) - 1`
and `mag = ‖y‖`, the result is `y/4 + 0.5` when `mag ≤ 1` and
`((2 - 1/mag) * y/mag)/4 + 0.5` when `mag > 1`. -/
theorem contract_maps_into_unit_cube (aabb : Aabb) (x : Fin 3 → ℝ) (eps : ℝ)
    (_hab : ∀ i, aabb.lo i < aabb.hi i) :
    (∀ i, 0 ≤ contract_to_unisphere x aabb eps false i ∧
        contract_to_unisphere x aabb eps false i ≤ 1) ∧
    (tnorm (toUnitCube aabb x) ≤ 1 →
      contract_to_unisphere x aabb eps false =
        fun i => toUnitCube aabb x i / 4 + 1 / 2) ∧
    (1 < tnorm (toUnitCube aabb x) →
      contract_to_unisphere x aabb eps false = fun i =>
        ((2 - 1 / tnorm (toUnitCube aabb x)) *
          (toUnitCube aabb x i / tnorm (toUnitCube aabb x))) / 4 + 1 / 2) := by
  refine ⟨fun i => ?_, contract_eq_of_le x aabb eps, contract_eq_of_lt x aabb eps⟩
  obtain ⟨h1, h2⟩ := contract_mem_Ioo x aabb eps i
  exact ⟨le_of_lt h1, le_of_lt h2⟩

theorem contract_maps_into_unit_cube_witness :
    (∀ i, aabb01.lo i < aabb01.hi i) ∧
    (0 ≤ contract_to_unisphere (fun _ => 0) aabb01 (1e-6) false 0 ∧
      contract_to_unisphere (fun _ => 0) aabb01 (1e-6) false 0 ≤ 1) := by
  have hab : ∀ i, aabb01.lo i < aabb01.hi i := fun i => by
    simp [aabb01]
  exact ⟨hab,
    (contract_maps_into_unit_cube aabb01 (fun _ => 0) (1e-6) hab).1 0⟩

/-- C8: with `derivative=True` every returned element is clamped to at
least `eps`, and for inputs whose recentred magnitude is at most 1 the
returned elements are exactly 1 whenever `eps ≤ 1`. -/
theorem contract_derivative_lower_bound (aabb : Aabb) (x : Fin 3 → ℝ)
    (eps : ℝ) (_hab : ∀ i, aabb.lo i < aabb.hi i) (_heps : 0 < eps) :
    (∀ i, eps ≤ contract_to_unisphere x aabb eps true i) ∧
    (tnorm (toUnitCube aabb x) ≤ 1 → eps ≤ 1 →
      ∀ i, contract_to_unisphere x aabb eps true i = 1) := by
  constructor
  · intro i
    by_cases hmag : 1 < tnorm (toUnitCube aabb x)
    · simp only [contract_to_unisphere, if_pos rfl, if_pos hmag]
      exact le_max_right _ _
    · simp only [contract_to_unisphere, if_pos rfl, if_neg hmag]
      exact le_max_right _ _
  · intro hmag heps1 i
    simp only [contract_to_unisphere, if_pos rfl, if_neg (not_lt.mpr hmag)]
    exact max_eq_left heps1

theorem contract_derivative_lower_bound_witness :
    (∀ i, aabb01.lo i < aabb01.hi i) ∧ (0 : ℝ) < 1 / 2 ∧
    (1 : ℝ) / 2 ≤ contract_to_unisphere (fun _ => 0) aabb01 (1 / 2) true 0 := by
  have hab : ∀ i, aabb01.lo i < aabb01.hi i := fun i => by
    simp [aabb01]
  refine ⟨hab, by norm_num, ?_⟩
  exact (contract_derivative_lower_bound aabb01 (fun _ => 0) (1 / 2) hab
    (by norm_num)).1 0

/-- C10: in unbounded mode the contracted coordinates are strictly inside
`(0,1)`, the selector of `query_density` holds, and the returned density is
the activation of the raw MLP density channel with no zeroing. -/
theorem unbounded_selector_all_true {E F : Type} (rf : NGPradianceField E F)
    (x : Fin 3 → ℝ) (hub : rf.unbounded = true)
    (_hab : ∀ i, rf.aabb.lo i < rf.aabb.hi i) :
    normPos rf x = contract_to_unisphere x rf.aabb (1e-6) false ∧
    (∀ i, 0 < normPos rf x i ∧ normPos rf x i < 1) ∧
    selector (normPos rf x) ∧
    (query_density rf x).1 = rf.density_activation (rf.mlp_base (normPos rf x)).1 := by
  have hnp : normPos rf x = contract_to_unisphere x rf.aabb (1e-6) false := by
    simp [normPos, hub]
  have hio : ∀ i, 0 < normPos rf x i ∧ normPos rf x i < 1 := by
    intro i; rw [hnp]; exact contract_mem_Ioo x rf.aabb (1e-6) i
  have hsel : selector (normPos rf x) := hio
  refine ⟨hnp, hio, hsel, ?_⟩
  simp only [query_density, selWeight, if_pos hsel, mul_one]

theorem unbounded_selector_all_true_witness :
    rfU.unbounded = true ∧ (∀ i, rfU.aabb.lo i < rfU.aabb.hi i) ∧
    (query_density rfU (fun _ => 0)).1 =
      rfU.density_activation (rfU.mlp_base (normPos rfU (fun _ => 0))).1 := by
  have hub : rfU.unbounded = true := rfl
  have hab : ∀ i, rfU.aabb.lo i < rfU.aabb.hi i := fun i => by
    simp [rfU, aabb01]
  exact ⟨hub, hab,
    (unbounded_selector_all_true rfU (fun _ => 0) hub hab).2.2.2⟩

/-- C3: whenever some normalized coordinate is `≤ 0` or `≥ 1`, the
selector fails and `query_density` returns density exactly 0, whatever the
opaque MLP produced. -/
theorem density_zero_outside_unit_cube {E F : Type}
    (rf : NGPradianceField E F) (x : Fin 3 → ℝ)
    (h : ∃ i, normPos rf x i ≤ 0 ∨ 1 ≤ normPos rf x i) :
    (query_density rf x).1 = 0 := by
  obtain ⟨i, hi⟩ := h
  have hns : ¬ selector (normPos rf x) := by
    intro hs
    obtain ⟨h1, h2⟩ := hs i
    rcases hi with hle | hge
    · exact absurd h1 (not_lt.mpr hle)
    · exact absurd h2 (not_lt.mpr hge)
  simp only [query_density, selWeight, if_neg hns, mul_zero]

theorem density_zero_outside_unit_cube_witness :
    (∃ i, normPos rfB (fun _ => 2) i ≤ 0 ∨ 1 ≤ normPos rfB (fun _ => 2) i) ∧
    (query_density rfB (fun _ => 2)).1 = 0 := by
  have h : ∃ i, normPos rfB (fun _ => 2) i ≤ 0 ∨ 1 ≤ normPos rfB (fun _ => 2) i := by
    refine ⟨0, Or.inr ?_⟩
    norm_num [normPos, rfB, normalize, aabb01]
  exact ⟨h, density_zero_outside_unit_cube rfB (fun _ => 2) h⟩

/-- C4 counterexample: the claim quantifies over every aabb with
`aabb_max ≠ aabb_min` componentwise, but with `aabb_min = 1, aabb_max = 0`
the open box `(aabb_min, aabb_max)` is empty while `(0,1)^3` is not, so
`normalize` is not a bijection from the former onto the latter. -/
theorem normalize_bijOn_fails_on_reversed_aabb :
    (∀ i, aabbRev.hi i ≠ aabbRev.lo i) ∧
    ¬ Set.BijOn (normalize aabbRev) (openBox aabbRev) unitOpenBox := by
  constructor
  · intro i; simp [aabbRev]
  · intro h
    have hmem : (fun _ => (1 : ℝ) / 2) ∈ unitOpenBox := by
      intro i; norm_num
    obtain ⟨x, hx, -⟩ := h.2.2 hmem
    obtain ⟨h1, h2⟩ := hx 0
    simp only [aabbRev] at h1 h2
    linarith

/-- C4 amended: the round trip
`aabb_min + normalize(x) * (aabb_max - aabb_min) = x` holds in every
coordinate where `aabb_max ≠ aabb_min`; the bijection of the open box
`(aabb_min, aabb_max)` onto `(0,1)^3` additionally needs
`aabb_min < aabb_max` componentwise. -/
theorem normalize_affine_roundtrip_bijOn (a : Aabb) :
    (∀ x : Fin 3 → ℝ, ∀ i, a.hi i ≠ a.lo i →
      a.lo i + normalize a x i * (a.hi i - a.lo i) = x i) ∧
    ((∀ i, a.lo i < a.hi i) →
      Set.BijOn (normalize a) (openBox a) unitOpenBox) := by
  constructor
  · intro x i hne
    have hd : a.hi i - a.lo i ≠ 0 := sub_ne_zero.mpr hne
    field_simp [normalize]
  · intro hab
    have hd : ∀ i, 0 < a.hi i - a.lo i := fun i => sub_pos.mpr (hab i)
    refine ⟨?_, ?_, ?_⟩
    · intro x hx i
      obtain ⟨h1, h2⟩ := hx i
      constructor
      · exact div_pos (sub_pos.mpr h1) (hd i)
      · show (x i - a.lo i) / (a.hi i - a.lo i) < 1
        rw [div_lt_one (hd i)]; linarith
    · intro x _ y _ hxy
      funext i
      have := congrFun hxy i
      simp only [normalize] at this
      have hne : a.hi i - a.lo i ≠ 0 := ne_of_gt (hd i)
      field_simp at this
      linarith [this]
    · intro y hy
      refine ⟨fun i => a.lo i + y i * (a.hi i - a.lo i), ?_, ?_⟩
      · intro i
        obtain ⟨h1, h2⟩ := hy i
        constructor
        · show a.lo i < a.lo i + y i * (a.hi i - a.lo i)
          nlinarith [hd i]
        · show a.lo i + y i * (a.hi i - a.lo i) < a.hi i
          nlinarith [hd i]
      · funext i
        have hne : a.hi i - a.lo i ≠ 0 := ne_of_gt (hd i)
        simp only [normalize]
        field_simp

theorem normalize_affine_roundtrip_bijOn_witness :
    ((aabb01.hi 0 ≠ aabb01.lo 0) ∧
      aabb01.lo 0 + normalize aabb01 (fun _ => 1 / 2) 0 *
        (aabb01.hi 0 - aabb01.lo 0) = (1 : ℝ) / 2) ∧
    ((∀ i, aabb01.lo i < aabb01.hi i) ∧
      Set.BijOn (normalize aabb01) (openBox aabb01) unitOpenBox) := by
  have hne : aabb01.hi 0 ≠ aabb01.lo 0 := by simp [aabb01]
  have hab : ∀ i, aabb01.lo i < aabb01.hi i := fun i => by simp [aabb01]
  exact ⟨⟨hne,
      (normalize_affine_roundtrip_bijOn aabb01).1 (fun _ => 1 / 2) 0 hne⟩,
    hab, (normalize_affine_roundtrip_bijOn aabb01).2 hab⟩

/-- C6: with `use_viewdirs`, `_query_rgb` remaps the direction by
`(d+1)/2` under `neck_pose` (sending `[-1,1]` components into `[0,1]`) and
by `(d - aabb_min)/(aabb_max - aabb_min)` under `posed_verts`, and feeds
the remapped direction to the direction encoding. -/
theorem query_rgb_direction_remap {E F : Type} (rf : NGPradianceField E F)
    (hvd : rf.use_viewdirs = true) :
    (rf.cond_type = CondType.neckPose →
      (∀ d : Fin 3 → ℝ, ∀ i, remapDir rf d i = (d i + 1) / 2) ∧
      (∀ d : Fin 3 → ℝ, (∀ i, -1 ≤ d i ∧ d i ≤ 1) →
        ∀ i, 0 ≤ remapDir rf d i ∧ remapDir rf d i ≤ 1)) ∧
    (rf.cond_type = CondType.posedVerts →
      ∀ d : Fin 3 → ℝ, ∀ i,
        remapDir rf d i = (d i - rf.aabb.lo i) / (rf.aabb.hi i - rf.aabb.lo i)) ∧
    (∀ ds : List (Fin 3 → ℝ), ∀ es : List F,
      _query_rgb rf (some ds) es = Except.ok ((ds.zip es).map fun de =>
        rf.mlp_head (some (rf.direction_encoding (remapDir rf de.1))) de.2)) := by
  refine ⟨fun hct => ⟨fun d i => ?_, fun d hd i => ?_⟩, fun hct d i => ?_,
    fun ds es => ?_⟩
  · simp [remapDir, hct]
  · have he : remapDir rf d i = (d i + 1) / 2 := by simp [remapDir, hct]
    obtain ⟨h1, h2⟩ := hd i
    rw [he]
    constructor <;> linarith
  · simp [remapDir, hct, normalize]
  · simp [_query_rgb, hvd]

theorem query_rgb_direction_remap_witness :
    rfB.use_viewdirs = true ∧ rfB.cond_type = CondType.neckPose ∧
    remapDir rfB (fun _ => 0) 0 = ((0 : ℝ) + 1) / 2 := by
  refine ⟨rfl, rfl, ?_⟩
  exact (query_rgb_direction_remap rfB rfl).1 rfl |>.1 (fun _ => 0) 0

lemma sigmoid_pos (v : ℝ) : 0 < sigmoid v := by
  have h : 0 < 1 + Real.exp (-v) := by positivity
  exact div_pos one_pos h

lemma sigmoid_lt_one (v : ℝ) : sigmoid v < 1 := by
  have h : 0 < Real.exp (-v) := Real.exp_pos _
  have h1 : 0 < 1 + Real.exp (-v) := by positivity
  rw [sigmoid, div_lt_one h1]
  linarith

/-- C7: with the default `last_op = torch.sigmoid` and any `scale > 0`,
every component of `NGPNet.forward` lies strictly between 0 and `scale`,
whatever the opaque encoder/MLP pipeline produces. -/
theorem ngpnet_output_range {E : Type} (n : NGPNet E)
    (hop : n.last_op = sigmoid) (hs : 0 < n.scale) (x : Fin 3 → ℝ)
    (cond : Option (Fin 3 → ℝ)) (i : Fin 3) :
    0 < n.forward x cond i ∧ n.forward x cond i < n.scale := by
  show 0 < n.last_op _ * n.scale ∧ n.last_op _ * n.scale < n.scale
  rw [hop]
  constructor
  · exact mul_pos (sigmoid_pos _) hs
  · calc sigmoid _ * n.scale < 1 * n.scale :=
        mul_lt_mul_of_pos_right (sigmoid_lt_one _) hs
      _ = n.scale := one_mul _

theorem ngpnet_output_range_witness :
    netW.last_op = sigmoid ∧ (0 : ℝ) < netW.scale ∧
    (0 < netW.forward (fun _ => 0) none 0 ∧
      netW.forward (fun _ => 0) none 0 < netW.scale) := by
  have hs : (0 : ℝ) < netW.scale := by norm_num [netW]
  exact ⟨rfl, hs, ngpnet_output_range netW rfl hs (fun _ => 0) none 0⟩

/-- `_query_rgb` can fail only with `noneDirError`, never with the shape
`assertionError`. -/
lemma _query_rgb_ne_assert {E F : Type} (rf : NGPradianceField E F)
    (ds : Option (List (Fin 3 → ℝ))) (es : List F) :
    _query_rgb rf ds es ≠ Except.error PyErr.assertionError := by
  by_cases hvd : rf.use_viewdirs = true
  · cases ds with
    | none => simp [_query_rgb, hvd]
    | some dl => simp [_query_rgb, hvd]
  · simp [_query_rgb, hvd]

/-- Any successful `forward` run decomposes into `query_density` with
`return_feat=True` followed by `_query_rgb`. -/
lemma forward_ok_decomp {E F : Type} (rf : NGPradianceField E F)
    (ps : List (Fin 3 → ℝ)) (ds : Option (List (Fin 3 → ℝ)))
    (r : List (Fin 3 → ℝ) × List ℝ) (h : forward rf ps ds = Except.ok r) :
    _query_rgb rf ds (query_density_batch rf ps).2 = Except.ok r.1 ∧
      (query_density_batch rf ps).1 = r.2 := by
  unfold forward at h
  by_cases hc : rf.use_viewdirs = true ∧ ds.isSome = true
  · rw [if_pos hc] at h
    by_cases hlen : ps.length = (ds.getD []).length
    · rw [if_pos hlen] at h
      cases he : _query_rgb rf ds (query_density_batch rf ps).2 with
      | error e => rw [he] at h; simp [Except.map] at h
      | ok v =>
          rw [he] at h
          simp only [Except.map, Except.ok.injEq] at h
          exact ⟨by rw [← h], by rw [← h]⟩
    · rw [if_neg hlen] at h
      simp at h
  · rw [if_neg hc] at h
    cases he : _query_rgb rf ds (query_density_batch rf ps).2 with
    | error e => rw [he] at h; simp [Except.map] at h
    | ok v =>
        rw [he] at h
        simp only [Except.map, Except.ok.injEq] at h
        exact ⟨by rw [← h], by rw [← h]⟩

/-- Neither `forward` branch that reaches `_query_rgb` can produce the
shape `assertionError`. -/
lemma map_query_rgb_ne_assert {E F : Type} (rf : NGPradianceField E F)
    (ds : Option (List (Fin 3 → ℝ))) (es : List F)
    (f : List (Fin 3 → ℝ) → List (Fin 3 → ℝ) × List ℝ) :
    Except.map f (_query_rgb rf ds es) ≠ Except.error PyErr.assertionError := by
  intro h
  cases he : _query_rgb rf ds es with
  | error e =>
      rw [he] at h
      simp only [Except.map, Except.error.injEq] at h
      exact _query_rgb_ne_assert rf ds es (h ▸ he)
  | ok v => rw [he] at h; simp [Except.map] at h

/-- C9: `forward` fails with the `AssertionError` exactly when
`use_viewdirs` holds, a directions tensor is given, and the two shapes
differ; equal shapes, `use_viewdirs=False` or absent directions never
trigger the assert. -/
theorem forward_assertion_iff_shape_mismatch {E F : Type}
    (rf : NGPradianceField E F) (ps : List (Fin 3 → ℝ))
    (ds : Option (List (Fin 3 → ℝ))) :
    forward rf ps ds = Except.error PyErr.assertionError ↔
      rf.use_viewdirs = true ∧ ds.isSome = true ∧
        ps.length ≠ (ds.getD []).length := by
  unfold forward
  by_cases hc : rf.use_viewdirs = true ∧ ds.isSome = true
  · rw [if_pos hc]
    by_cases hlen : ps.length = (ds.getD []).length
    · rw [if_pos hlen]
      constructor
      · intro h; exact absurd h (map_query_rgb_ne_assert rf ds _ _)
      · rintro ⟨-, -, hne⟩; exact absurd hlen hne
    · rw [if_neg hlen]
      exact ⟨fun _ => ⟨hc.1, hc.2, hlen⟩, fun _ => rfl⟩
  · rw [if_neg hc]
    constructor
    · intro h; exact absurd h (map_query_rgb_ne_assert rf ds _ _)
    · rintro ⟨h1, h2, -⟩; exact absurd ⟨h1, h2⟩ hc

/-- C1: whenever `forward` returns on the same positions with two
different direction tensors, the density halves of the results agree:
the density depends only on the positions. -/
theorem density_independent_of_directions {E F : Type}
    (rf : NGPradianceField E F) (ps : List (Fin 3 → ℝ))
    (ds1 ds2 : List (Fin 3 → ℝ)) (r1 r2 : List (Fin 3 → ℝ) × List ℝ)
    (h1 : forward rf ps (some ds1) = Except.ok r1)
    (h2 : forward rf ps (some ds2) = Except.ok r2) : r1.2 = r2.2 := by
  have k1 := (forward_ok_decomp rf ps (some ds1) r1 h1).2
  have k2 := (forward_ok_decomp rf ps (some ds2) r2 h2).2
  rw [← k1, ← k2]

/-- C5: every successful `forward` result is the pair `(rgb, density)`
with `(density, embedding)` from `query_density(..., return_feat=True)`
and `rgb` from `_query_rgb(directions, embedding)`; the proof covers both
branches of the conditional, which compute the same composition. -/
theorem forward_decomposition {E F : Type} (rf : NGPradianceField E F)
    (ps : List (Fin 3 → ℝ)) (ds : Option (List (Fin 3 → ℝ)))
    (r : List (Fin 3 → ℝ) × List ℝ) (h : forward rf ps ds = Except.ok r) :
    _query_rgb rf ds (query_density_batch rf ps).2 = Except.ok r.1 ∧
      (query_density_batch rf ps).1 = r.2 :=
  forward_ok_decomp rf ps ds r h

/-- A sample position and two sample directions for the witnesses. -/
def p0 : Fin 3 → ℝ := fun _ => 1 / 2

def d1 : Fin 3 → ℝ := fun _ => 0

def d2 : Fin 3 → ℝ := fun _ => 1

/-- The value `forward rfB [p0] (some [d])` reduces to for any direction. -/
def R0 : List (Fin 3 → ℝ) × List ℝ :=
  ([fun _ => 0], [(query_density rfB p0).1])

theorem density_independent_of_directions_witness :
    forward rfB [p0] (some [d1]) = Except.ok R0 ∧
    forward rfB [p0] (some [d2]) = Except.ok R0 ∧ R0.2 = R0.2 :=
  ⟨rfl, rfl, density_independent_of_directions rfB [p0] [d1] [d2] R0 R0 rfl rfl⟩

theorem forward_decomposition_witness :
    forward rfB [p0] (some [d1]) = Except.ok R0 ∧
    (_query_rgb rfB (some [d1]) (query_density_batch rfB [p0]).2 =
        Except.ok R0.1 ∧
      (query_density_batch rfB [p0]).1 = R0.2) :=
  ⟨rfl, forward_decomposition rfB [p0] (some [d1]) R0 rfl⟩

end NGP
